import Mathlib

/-!
Shallow embedding of the Tic Tac Toe engine (`tic_tac_toe.py`) and the parts of
the Flask adapter (`app.py`) that validate moves and manage session state.

Board cells and the active-player marker are single characters, exactly as in
the Python source: a space `' '` is an empty cell, `'X'` and `'O'` are the two
marks.  A board is the ordered list of the N² = 25 cells.  Python list indexing
(which accepts negative indices and raises `IndexError` outside
`[-len, len)`) is modelled by `pyListSet`, returning `none` where Python would
raise.
-/

namespace TicTacToe

/-- `BOARD_SIZE = 5` from `tic_tac_toe.py`. -/
def BOARD_SIZE : Nat := 5

/-- `TOTAL_CELLS = BOARD_SIZE * BOARD_SIZE` from `tic_tac_toe.py`. -/
def TOTAL_CELLS : Nat := BOARD_SIZE * BOARD_SIZE

/-- `generate_winning_lines(size)` from `tic_tac_toe.py`: all rows, then all
columns, then the two main diagonals, in that order. -/
def generate_winning_lines (size : Nat) : List (List Nat) :=
  ((List.range size).map (fun row => (List.range size).map (fun col => row * size + col)))
    ++ ((List.range size).map (fun col => (List.range size).map (fun row => col + row * size)))
    ++ [(List.range size).map (fun i => i * size + i),
        (List.range size).map (fun i => i * size + (size - 1 - i))]

/-- `WINNING_LINES = generate_winning_lines(BOARD_SIZE)`, the module-level
constant of `tic_tac_toe.py`. -/
def WINNING_LINES : List (List Nat) := generate_winning_lines BOARD_SIZE

/-- The frozen dataclass `GameState(board, active)` of `tic_tac_toe.py`. -/
structure GameState where
  board : List Char
  active : Char
deriving DecidableEq, Repr

/-- The body of the `for` loop of `check_winner`: for a line `i :: rest`,
`first = cells[line[0]]`, and the line wins when `first != " "` and every
remaining cell of the line equals `first`.  Out-of-range reads default to
`' '`; all indices of `WINNING_LINES` are in range on a 25-cell board. -/
def line_first_wins (cells : List Char) : List Nat → Bool
  | [] => false
  | i :: rest =>
    (cells.getD i ' ' != ' ') && rest.all (fun idx => cells.getD idx ' ' == cells.getD i ' ')

/-- The loop of `check_winner(board)`: return the first cell of the first
winning line, or `none` when no line is won. -/
def check_winner_aux (cells : List Char) : List (List Nat) → Option Char
  | [] => none
  | line :: rest =>
    if line_first_wins cells line then some (cells.getD (line.headD 0) ' ')
    else check_winner_aux cells rest

/-- `check_winner(board)` from `tic_tac_toe.py`. -/
def check_winner (cells : List Char) : Option Char :=
  check_winner_aux cells WINNING_LINES

/-- `is_draw(board)` from `tic_tac_toe.py`: every cell is non-empty. -/
def is_draw (cells : List Char) : Bool :=
  cells.all (fun cell => cell != ' ')

/-- Python list element assignment `board[slot] = v` on a fresh copy of
`board`: a slot in `[0, len)` writes at `slot`, a slot in `[-len, 0)` writes at
`len + slot`, anything else raises `IndexError` (modelled as `none`). -/
def pyListSet (l : List Char) (slot : Int) (v : Char) : Option (List Char) :=
  if 0 ≤ slot ∧ slot < (l.length : Int) then some (l.set slot.toNat v)
  else if -(l.length : Int) ≤ slot ∧ slot < 0 then
    some (l.set (slot + (l.length : Int)).toNat v)
  else none

/-- `make_move(state, slot)` from `tic_tac_toe.py`: copy the board, write the
active mark at `slot` (Python indexing), and flip the turn:
`next_player = "O" if state.active == "X" else "X"`. -/
def make_move (state : GameState) (slot : Int) : Option GameState :=
  (pyListSet state.board slot state.active).map
    (fun board => GameState.mk board (if state.active = 'X' then 'O' else 'X'))

/-- `new_game(starting_player)` from `tic_tac_toe.py`. -/
def new_game (starting_player : Char) : GameState :=
  GameState.mk (List.replicate TOTAL_CELLS ' ') starting_player

/-- `new_game()` with the default argument `starting_player = "X"`. -/
def new_game_default : GameState :=
  new_game 'X'

/-- The result of `evaluate_state`: `'X'`/`'O'` winner, `"draw"`, or `None`. -/
inductive Outcome where
  | win (mark : Char)
  | draw
  | inProgress
deriving DecidableEq, Repr

/-- `evaluate_state(state)` from `tic_tac_toe.py`. -/
def evaluate_state (state : GameState) : Outcome :=
  match check_winner state.board with
  | some winner => Outcome.win winner
  | none => if is_draw state.board then Outcome.draw else Outcome.inProgress

/-- The error taxonomy of the move-validation code in `app.py`. -/
inductive MoveError where
  | gameAlreadyOver
  | outOfRange
  | cellOccupied
deriving DecidableEq, Repr

/-- The validation part of the `move` handler in `app.py` (after the
terminal-state check): reject `position < 0 or position >= TOTAL_CELLS`, then
reject an occupied target cell `state.board[position] != " "`. -/
def validate_move (state : GameState) (position : Int) : Except MoveError Unit :=
  if position < 0 ∨ (TOTAL_CELLS : Int) ≤ position then Except.error MoveError.outOfRange
  else if state.board.getD position.toNat ' ' != ' ' then Except.error MoveError.cellOccupied
  else Except.ok ()

/-- The `move` handler of `app.py` on a decoded position: first the
terminal-state check (`if outcome:` — any non-`None` outcome aborts with the
"game is finished" message), then validation, then `make_move`. -/
def app_move (state : GameState) (position : Int) : Except MoveError GameState :=
  match evaluate_state state with
  | Outcome.inProgress =>
    match validate_move state position with
    | Except.error e => Except.error e
    | Except.ok _ =>
      match make_move state position with
      | some updated => Except.ok updated
      | none => Except.error MoveError.outOfRange
  | _ => Except.error MoveError.gameAlreadyOver

/-- The per-visitor session store of `app.py`: the optional `"board"` and
`"active"` entries. -/
structure Session where
  board : Option (List Char)
  active : Option Char
deriving DecidableEq, Repr

/-- `_set_state(state)` from `app.py`. -/
def set_state (state : GameState) : Session :=
  Session.mk (some state.board) (some state.active)

/-- `_get_state()` from `app.py`: read `"board"` and `"active"` (defaulting
the active mark to `"X"`); if the board is absent, empty (`not board`) or of
the wrong length, synthesize a fresh game, store it, and return it. -/
def get_state (sess : Session) : GameState × Session :=
  let active := sess.active.getD 'X'
  match sess.board with
  | none =>
    let state := new_game_default
    (state, set_state state)
  | some board =>
    if board.isEmpty || board.length != TOTAL_CELLS then
      let state := new_game_default
      (state, set_state state)
    else (GameState.mk board active, sess)

/-- States reachable from a fresh game (starting mark `'X'` or `'O'`) by any
sequence of successful `make_move` calls. -/
inductive Reachable : GameState → Prop where
  | init (mark : Char) (h : mark = 'X' ∨ mark = 'O') : Reachable (new_game mark)
  | step (s s' : GameState) (slot : Int) (hr : Reachable s)
      (hm : make_move s slot = some s') : Reachable s'

/-- Specification-side predicate for claim C1: line `line` is won by mark `m`
(every cell of the line holds the non-empty mark `m`). -/
def lineWonBy (cells : List Char) (line : List Nat) (m : Char) : Prop :=
  m ≠ ' ' ∧ ∀ i ∈ line, cells.getD i ' ' = m

/-- Helper: a successful `make_move` always flips the active mark by the
Python conditional expression. -/
theorem make_move_active (s s' : GameState) (slot : Int)
    (hm : make_move s slot = some s') :
    s'.active = (if s.active = 'X' then 'O' else 'X') := by
  unfold make_move at hm
  cases hps : pyListSet s.board slot s.active with
  | none => rw [hps] at hm; cases hm
  | some b => rw [hps] at hm; cases hm; rfl

/-- Helper: an in-range non-negative slot makes `pyListSet` write at `slot`. -/
theorem pyListSet_nonneg (l : List Char) (slot : Int) (v : Char)
    (h0 : 0 ≤ slot) (h1 : slot < (l.length : Int)) :
    pyListSet l slot v = some (l.set slot.toNat v) := by
  unfold pyListSet
  rw [if_pos ⟨h0, h1⟩]

/-- Helper: the successful `make_move` result for an in-range non-negative
slot. -/
theorem make_move_eq_some (s : GameState) (slot : Int)
    (h0 : 0 ≤ slot) (h1 : slot < (s.board.length : Int)) :
    make_move s slot =
      some (GameState.mk (s.board.set slot.toNat s.active)
        (if s.active = 'X' then 'O' else 'X')) := by
  unfold make_move
  rw [pyListSet_nonneg s.board slot s.active h0 h1]
  rfl

/-- C7: `newGame(startingMark)` returns a GameState whose board has all N²
cells Empty and whose active mark equals the given starting mark; the default
starting mark is X; `evaluate` on the fresh state is `InProgress`. -/
theorem new_game_spec : ∀ mark : Char,
    (new_game mark).board = List.replicate TOTAL_CELLS ' '
      ∧ (new_game mark).active = mark
      ∧ new_game_default = new_game 'X'
      ∧ evaluate_state (new_game mark) = Outcome.inProgress := by
  intro mark
  exact ⟨rfl, rfl, rfl, rfl⟩

/-- C8: when the session board is absent or has the wrong length, `_get_state`
synthesizes a fresh initial GameState (all cells Empty, active mark X), stores
it in the session, and returns it. -/
theorem get_state_fallback_spec : ∀ sess : Session,
    (sess.board = none ∨ ∃ b, sess.board = some b ∧ b.length ≠ TOTAL_CELLS) →
    (get_state sess).1 = new_game 'X'
      ∧ (get_state sess).2 = set_state (new_game 'X')
      ∧ (get_state sess).1.board = List.replicate TOTAL_CELLS ' '
      ∧ (get_state sess).1.active = 'X' := by
  intro sess h
  cases hb : sess.board with
  | none =>
    refine ⟨?_, ?_, ?_, ?_⟩ <;> simp [get_state, hb, new_game_default, new_game]
  | some b =>
    have hlen : b.length ≠ TOTAL_CELLS := by
      rcases h with h | ⟨b', hb', hlen⟩
      · rw [hb] at h; cases h
      · rw [hb] at hb'
        cases hb'
        exact hlen
    have hcond : (b.isEmpty || b.length != TOTAL_CELLS) = true := by
      simp only [Bool.or_eq_true, bne_iff_ne]
      exact Or.inr hlen
    refine ⟨?_, ?_, ?_, ?_⟩ <;> simp [get_state, hb, hcond, new_game_default, new_game]

/-- C8 witness: an empty session is repaired to a fresh game. -/
theorem get_state_fallback_spec_witness :
    (get_state (Session.mk none none)).1 = new_game 'X'
      ∧ (get_state (Session.mk none none)).2 = set_state (new_game 'X')
      ∧ (get_state (Session.mk none none)).1.board = List.replicate TOTAL_CELLS ' '
      ∧ (get_state (Session.mk none none)).1.active = 'X' :=
  get_state_fallback_spec (Session.mk none none) (Or.inl rfl)

/-- C9: every state reachable from a fresh game by successful moves has its
active mark in {X, O}; moreover `make_move` sets the resulting active mark to
O exactly when the input active mark was X, and to X for any other input
active mark. -/
theorem active_mark_invariant_spec :
    (∀ s : GameState, Reachable s → s.active = 'X' ∨ s.active = 'O')
      ∧ (∀ (s s' : GameState) (slot : Int), make_move s slot = some s' →
          ((s'.active = 'O' ↔ s.active = 'X') ∧ (s.active ≠ 'X' → s'.active = 'X'))) := by
  constructor
  · intro s hr
    induction hr with
    | init mark h => exact h
    | step t t' slot hr hm ih =>
      rw [make_move_active t t' slot hm]
      by_cases hx : t.active = 'X'
      · rw [if_pos hx]
        exact Or.inr rfl
      · rw [if_neg hx]
        exact Or.inl rfl
  · intro s s' slot hm
    rw [make_move_active s s' slot hm]
    by_cases hx : s.active = 'X'
    · rw [if_pos hx]
      exact ⟨Iff.intro (fun _ => hx) (fun _ => rfl), fun hc => absurd hx hc⟩
    · rw [if_neg hx]
      refine ⟨Iff.intro (fun h => absurd h (by decide)) (fun h => absurd h hx), fun _ => rfl⟩

/-- C9 witness: the invariant at a fresh O-game, and the flip on the first
move of a fresh X-game. -/
theorem active_mark_invariant_spec_witness :
    ((new_game 'O').active = 'X' ∨ (new_game 'O').active = 'O')
      ∧ ((GameState.mk ((List.replicate TOTAL_CELLS ' ').set 0 'X') 'O').active = 'O'
          ↔ (new_game 'X').active = 'X') :=
  ⟨active_mark_invariant_spec.1 (new_game 'O') (Reachable.init 'O' (Or.inr rfl)),
   (active_mark_invariant_spec.2 (new_game 'X')
      (GameState.mk ((List.replicate TOTAL_CELLS ' ').set 0 'X') 'O') 0 (by decide)).1⟩

/-- C4: on any state whose outcome is not `InProgress`, the move handler fails
with `GameAlreadyOver` for every position; no move is accepted on a terminal
state (the state value itself is never rewritten — the handler returns only
the error). -/
theorem app_move_terminal_spec :
    ∀ (s : GameState) (position : Int),
      evaluate_state s ≠ Outcome.inProgress →
      app_move s position = Except.error MoveError.gameAlreadyOver := by
  intro s position h
  cases hev : evaluate_state s with
  | win m => simp [app_move, hev]
  | draw => simp [app_move, hev]
  | inProgress => exact absurd hev h

/-- C4 witness: a board with a completed first row of X rejects a move at an
empty cell with `GameAlreadyOver`. -/
theorem app_move_terminal_spec_witness :
    app_move (GameState.mk (List.replicate 5 'X' ++ List.replicate 20 ' ') 'O') 7
      = Except.error MoveError.gameAlreadyOver :=
  app_move_terminal_spec
    (GameState.mk (List.replicate 5 'X' ++ List.replicate 20 ' ') 'O') 7 (by decide)

/-- C5: validation fails with `OutOfRange` for an index `< 0` or `≥ N²`, and
with `CellOccupied` for an in-range index whose cell is not empty; on a fresh
game, positions `-1` and `25` are `OutOfRange`, and the cell taken by the
first move is `CellOccupied` on the second attempt. -/
theorem validate_move_spec :
    ∀ (s : GameState) (position : Int),
      ((position < 0 ∨ (TOTAL_CELLS : Int) ≤ position) →
        validate_move s position = Except.error MoveError.outOfRange)
      ∧ (0 ≤ position → position < (TOTAL_CELLS : Int) →
          s.board.getD position.toNat ' ' ≠ ' ' →
          validate_move s position = Except.error MoveError.cellOccupied)
      ∧ validate_move (new_game 'X') (-1) = Except.error MoveError.outOfRange
      ∧ validate_move (new_game 'X') 25 = Except.error MoveError.outOfRange
      ∧ (∃ s1, make_move (new_game 'X') 0 = some s1
          ∧ validate_move s1 0 = Except.error MoveError.cellOccupied) := by
  intro s position
  refine ⟨?_, ?_, rfl, rfl,
    ⟨GameState.mk ((List.replicate TOTAL_CELLS ' ').set 0 'X') 'O', by decide, rfl⟩⟩
  · intro h
    unfold validate_move
    rw [if_pos h]
  · intro h0 h1 hocc
    have hrange : ¬(position < 0 ∨ (TOTAL_CELLS : Int) ≤ position) := by omega
    unfold validate_move
    rw [if_neg hrange, if_pos (by simpa [bne_iff_ne] using hocc)]

/-- C5 witness: an index far outside the board on a fresh O-game. -/
theorem validate_move_spec_witness :
    validate_move (new_game 'O') 30 = Except.error MoveError.outOfRange :=
  (validate_move_spec (new_game 'O') 30).1 (Or.inr (by decide))

/-- C3: on a validated move (in-range index, empty target cell, active mark a
real mark), `make_move` succeeds; the addressed cell now holds the previously
active mark, the active mark has flipped to the other mark, and exactly one
more cell is non-Empty than before. -/
theorem make_move_validated_spec :
    ∀ (s : GameState) (slot : Int),
      s.board.length = TOTAL_CELLS →
      (s.active = 'X' ∨ s.active = 'O') →
      0 ≤ slot → slot < (TOTAL_CELLS : Int) →
      s.board.getD slot.toNat ' ' = ' ' →
      ∃ s', make_move s slot = some s'
        ∧ s'.board.getD slot.toNat ' ' = s.active
        ∧ s'.active = (if s.active = 'X' then 'O' else 'X')
        ∧ s'.board.countP (fun c => c != ' ')
            = s.board.countP (fun c => c != ' ') + 1 := by
  intro s slot hlen hmark h0 h1 hempty
  have hlen' : (s.board.length : Int) = (TOTAL_CELLS : Int) := by
    exact_mod_cast congrArg (fun n : Nat => (n : Int)) hlen
  have hlt : slot.toNat < s.board.length := by omega
  refine ⟨GameState.mk (s.board.set slot.toNat s.active)
    (if s.active = 'X' then 'O' else 'X'),
    make_move_eq_some s slot h0 (by omega), ?_, rfl, ?_⟩
  · show (s.board.set slot.toNat s.active).getD slot.toNat ' ' = s.active
    rw [List.getD_eq_getElem?_getD, List.getElem?_set_self hlt]
    rfl
  · show (s.board.set slot.toNat s.active).countP (fun c => c != ' ')
        = s.board.countP (fun c => c != ' ') + 1
    rw [List.countP_set (fun c => c != ' ') s.board slot.toNat s.active hlt]
    have hget : s.board[slot.toNat] = ' ' := by
      rw [List.getD_eq_getElem?_getD, List.getElem?_eq_getElem hlt] at hempty
      exact hempty
    have hactive : (s.active != ' ') = true := by
      rcases hmark with h | h <;> rw [h] <;> decide
    rw [hget, hactive]
    simp

/-- C3 witness: the first move of a fresh game fills cell 0 with X, hands the
turn to O, and raises the number of occupied cells from 0 to 1. -/
theorem make_move_validated_spec_witness :
    ∃ s', make_move (new_game 'X') 0 = some s'
      ∧ s'.board.getD (Int.toNat 0) ' ' = (new_game 'X').active
      ∧ s'.active = (if (new_game 'X').active = 'X' then 'O' else 'X')
      ∧ s'.board.countP (fun c => c != ' ')
          = (new_game 'X').board.countP (fun c => c != ' ') + 1 :=
  make_move_validated_spec (new_game 'X') 0 (by decide) (Or.inl rfl)
    (by decide) (by decide) (by decide)

/-- C6: `make_move` is a pure transformation: the input state is a value that
the call cannot alter, and every cell of the returned board other than the
addressed one equals the corresponding cell of the input board. -/
theorem make_move_frame_spec :
    ∀ (s : GameState) (slot : Int) (s' : GameState),
      s.board.length = TOTAL_CELLS →
      0 ≤ slot → slot < (TOTAL_CELLS : Int) →
      s.board.getD slot.toNat ' ' = ' ' →
      make_move s slot = some s' →
      ∀ j : Nat, j ≠ slot.toNat → s'.board.getD j ' ' = s.board.getD j ' ' := by
  intro s slot s' hlen h0 h1 hempty hm j hj
  have hlen' : (s.board.length : Int) = (TOTAL_CELLS : Int) := by
    exact_mod_cast congrArg (fun n : Nat => (n : Int)) hlen
  rw [make_move_eq_some s slot h0 (by omega)] at hm
  cases hm
  show (s.board.set slot.toNat s.active).getD j ' ' = s.board.getD j ' '
  rw [List.getD_eq_getElem?_getD, List.getD_eq_getElem?_getD,
    List.getElem?_set_ne (fun h => hj h.symm)]

/-- C6 witness: after X takes cell 0 of a fresh game, cell 1 is unchanged. -/
theorem make_move_frame_spec_witness :
    (GameState.mk ((List.replicate TOTAL_CELLS ' ').set 0 'X') 'O').board.getD 1 ' '
      = (new_game 'X').board.getD 1 ' ' :=
  make_move_frame_spec (new_game 'X') 0
    (GameState.mk ((List.replicate TOTAL_CELLS ' ').set 0 'X') 'O')
    (by decide) (by decide) (by decide) (by decide) (by decide) 1 (by decide)

/-- C10: `make_move` performs no validation: on a 25-cell board it succeeds
for every slot in `[-N², N²)` — writing the active mark at `slot`, or at
`N² + slot` when `slot` is negative, overwriting whatever is there, with no
regard to the game being over — and fails (Python `IndexError`) exactly for
slots `≥ N²` or `< -N²`. -/
theorem make_move_no_validation_spec :
    ∀ (s : GameState) (slot : Int), s.board.length = TOTAL_CELLS →
      ((-(TOTAL_CELLS : Int) ≤ slot ∧ slot < (TOTAL_CELLS : Int)) →
        make_move s slot = some (GameState.mk
          (s.board.set (if slot < 0 then (slot + (TOTAL_CELLS : Int)).toNat else slot.toNat)
            s.active)
          (if s.active = 'X' then 'O' else 'X')))
      ∧ (((TOTAL_CELLS : Int) ≤ slot ∨ slot < -(TOTAL_CELLS : Int)) →
          make_move s slot = none) := by
  intro s slot hlen
  have hlen' : (s.board.length : Int) = (TOTAL_CELLS : Int) := by
    exact_mod_cast congrArg (fun n : Nat => (n : Int)) hlen
  constructor
  · rintro ⟨hlow, hhigh⟩
    by_cases hneg : slot < 0
    · have hc1 : ¬(0 ≤ slot ∧ slot < (s.board.length : Int)) := by omega
      have hc2 : -(s.board.length : Int) ≤ slot ∧ slot < 0 := by omega
      unfold make_move pyListSet
      rw [if_neg hc1, if_pos hc2, if_pos hneg, hlen']
      rfl
    · have hc1 : 0 ≤ slot ∧ slot < (s.board.length : Int) := by omega
      unfold make_move pyListSet
      rw [if_pos hc1, if_neg hneg]
      rfl
  · intro hout
    have hc1 : ¬(0 ≤ slot ∧ slot < (s.board.length : Int)) := by omega
    have hc2 : ¬(-(s.board.length : Int) ≤ slot ∧ slot < 0) := by omega
    unfold make_move pyListSet
    rw [if_neg hc1, if_neg hc2]
    rfl

/-- C10 witness: on a full board of X with the game long over, `make_move`
at slot -1 still succeeds and overwrites cell 24 with O. -/
theorem make_move_no_validation_spec_witness :
    make_move (GameState.mk (List.replicate TOTAL_CELLS 'X') 'O') (-1)
      = some (GameState.mk
          ((List.replicate TOTAL_CELLS 'X').set
            (if (-1 : Int) < 0 then ((-1 : Int) + (TOTAL_CELLS : Int)).toNat
             else (-1 : Int).toNat) 'O')
          (if 'O' = 'X' then 'O' else 'X')) :=
  (make_move_no_validation_spec (GameState.mk (List.replicate TOTAL_CELLS 'X') 'O')
    (-1) (by decide)).1 (by decide)

/-- Helper: the loop-body test succeeds exactly when the line is won by its
first cell's mark. -/
theorem line_first_wins_iff (cells : List Char) (i : Nat) (rest : List Nat) :
    line_first_wins cells (i :: rest) = true ↔
      lineWonBy cells (i :: rest) (cells.getD i ' ') := by
  simp only [line_first_wins, Bool.and_eq_true, bne_iff_ne, List.all_eq_true, beq_iff_eq,
    lineWonBy, List.forall_mem_cons]
  tauto

/-- Helper: a won line's mark is the mark of its first cell. -/
theorem lineWonBy_head (cells : List Char) (i : Nat) (rest : List Nat) (m : Char)
    (h : lineWonBy cells (i :: rest) m) : cells.getD i ' ' = m :=
  h.2 i (List.mem_cons_self i rest)

/-- Helper: a line won by any mark passes the loop-body test. -/
theorem line_first_wins_of_won (cells : List Char) (i : Nat) (rest : List Nat) (m : Char)
    (h : lineWonBy cells (i :: rest) m) : line_first_wins cells (i :: rest) = true := by
  rw [line_first_wins_iff, lineWonBy_head cells i rest m h]
  exact h

/-- Helper: `check_winner_aux` returns `some m` exactly when some line is won
by `m` and it is the first won line in order. -/
theorem check_winner_aux_eq_some_iff (cells : List Char) :
    ∀ lines : List (List Nat), (∀ l ∈ lines, l ≠ []) → ∀ m : Char,
      (check_winner_aux cells lines = some m ↔
        ∃ k, k < lines.length ∧ lineWonBy cells (lines.getD k []) m
          ∧ ∀ j, j < k → ∀ m', ¬ lineWonBy cells (lines.getD j []) m') := by
  intro lines
  induction lines with
  | nil =>
    intro _ m
    simp [check_winner_aux]
  | cons line rest ih =>
    intro hne m
    have hline : line ≠ [] := hne line (List.mem_cons_self line rest)
    obtain ⟨i, tail, rfl⟩ : ∃ i tail, line = i :: tail := by
      cases line with
      | nil => exact absurd rfl hline
      | cons a t => exact ⟨a, t, rfl⟩
    by_cases hw : line_first_wins cells (i :: tail) = true
    · have heq : check_winner_aux cells ((i :: tail) :: rest) = some (cells.getD i ' ') := by
        simp [check_winner_aux, hw]
      have hwon : lineWonBy cells (i :: tail) (cells.getD i ' ') :=
        (line_first_wins_iff cells i tail).mp hw
      rw [heq]
      constructor
      · intro hsome
        have hm : cells.getD i ' ' = m := by
          cases hsome
          rfl
        refine ⟨0, Nat.succ_pos _, ?_, ?_⟩
        · rw [List.getD_cons_zero]
          rw [hm] at hwon
          exact hwon
        · intro j hj m' _
          exact absurd hj (Nat.not_lt_zero j)
      · rintro ⟨k, hk, hwonk, hmin⟩
        cases k with
        | zero =>
          rw [List.getD_cons_zero] at hwonk
          rw [lineWonBy_head cells i tail m hwonk]
        | succ k' =>
          exfalso
          apply hmin 0 (Nat.succ_pos k') (cells.getD i ' ')
          rw [List.getD_cons_zero]
          exact hwon
    · have heq : check_winner_aux cells ((i :: tail) :: rest) = check_winner_aux cells rest := by
        simp [check_winner_aux, hw]
      have hrest : ∀ l ∈ rest, l ≠ [] := fun l hl => hne l (List.mem_cons_of_mem _ hl)
      rw [heq, ih hrest m]
      constructor
      · rintro ⟨k, hk, hwonk, hmin⟩
        refine ⟨k + 1, Nat.succ_lt_succ hk, ?_, ?_⟩
        · rw [List.getD_cons_succ]
          exact hwonk
        · intro j hj m' hcon
          cases j with
          | zero =>
            rw [List.getD_cons_zero] at hcon
            exact hw (line_first_wins_of_won cells i tail m' hcon)
          | succ j' =>
            rw [List.getD_cons_succ] at hcon
            exact hmin j' (Nat.lt_of_succ_lt_succ hj) m' hcon
      · rintro ⟨k, hk, hwonk, hmin⟩
        cases k with
        | zero =>
          exfalso
          rw [List.getD_cons_zero] at hwonk
          exact hw (line_first_wins_of_won cells i tail m hwonk)
        | succ k' =>
          rw [List.getD_cons_succ] at hwonk
          refine ⟨k', Nat.lt_of_succ_lt_succ hk, hwonk, ?_⟩
          intro j hj m' hcon
          apply hmin (j + 1) (Nat.succ_lt_succ hj) m'
          rw [List.getD_cons_succ]
          exact hcon

/-- Helper: `check_winner_aux` returns `none` exactly when no line is won. -/
theorem check_winner_aux_eq_none_iff (cells : List Char) :
    ∀ lines : List (List Nat), (∀ l ∈ lines, l ≠ []) →
      (check_winner_aux cells lines = none ↔
        ∀ l ∈ lines, ∀ m, ¬ lineWonBy cells l m) := by
  intro lines
  induction lines with
  | nil =>
    intro _
    simp [check_winner_aux]
  | cons line rest ih =>
    intro hne
    have hline : line ≠ [] := hne line (List.mem_cons_self line rest)
    obtain ⟨i, tail, rfl⟩ : ∃ i tail, line = i :: tail := by
      cases line with
      | nil => exact absurd rfl hline
      | cons a t => exact ⟨a, t, rfl⟩
    have hrest : ∀ l ∈ rest, l ≠ [] := fun l hl => hne l (List.mem_cons_of_mem _ hl)
    by_cases hw : line_first_wins cells (i :: tail) = true
    · have heq : check_winner_aux cells ((i :: tail) :: rest) = some (cells.getD i ' ') := by
        simp [check_winner_aux, hw]
      apply iff_of_false
      · rw [heq]
        exact fun h => Option.noConfusion h
      · intro hall
        exact hall (i :: tail) (List.mem_cons_self _ _) (cells.getD i ' ')
          ((line_first_wins_iff cells i tail).mp hw)
    · have heq : check_winner_aux cells ((i :: tail) :: rest) = check_winner_aux cells rest := by
        simp [check_winner_aux, hw]
      rw [heq, ih hrest]
      constructor
      · intro hall l hl m
        rcases List.mem_cons.mp hl with h | h
        · subst h
          intro hcon
          exact hw (line_first_wins_of_won cells i tail m hcon)
        · exact hall l h m
      · intro hall l hl m
        exact hall l (List.mem_cons_of_mem _ hl) m

/-- Helper: an in-range `getD` is a member of the list. -/
theorem getD_mem_of_lt (l : List (List Nat)) (k : Nat) (hk : k < l.length) :
    l.getD k [] ∈ l := by
  rw [List.getD_eq_getElem?_getD, List.getElem?_eq_getElem hk]
  exact List.getElem_mem hk

/-- C1: `evaluate` returns `Win(m)` iff some winning line is entirely filled
with the non-Empty mark `m` and that line is the first such line in the
generator's order; it returns `Draw` iff no line is won and every cell is
non-Empty; and `InProgress` iff no line is won and some cell is Empty. -/
theorem evaluate_state_spec :
    ∀ s : GameState, s.board.length = TOTAL_CELLS →
      (∀ m, evaluate_state s = Outcome.win m ↔
        ∃ k, k < WINNING_LINES.length ∧ lineWonBy s.board (WINNING_LINES.getD k []) m
          ∧ ∀ j, j < k → ∀ m', ¬ lineWonBy s.board (WINNING_LINES.getD j []) m')
      ∧ (evaluate_state s = Outcome.draw ↔
          ((∀ l ∈ WINNING_LINES, ∀ m, ¬ lineWonBy s.board l m) ∧ ∀ c ∈ s.board, c ≠ ' '))
      ∧ (evaluate_state s = Outcome.inProgress ↔
          ((∀ l ∈ WINNING_LINES, ∀ m, ¬ lineWonBy s.board l m) ∧ ∃ c ∈ s.board, c = ' ')) := by
  intro s _
  have hne : ∀ l ∈ WINNING_LINES, l ≠ [] := by decide
  have hsome := check_winner_aux_eq_some_iff s.board WINNING_LINES hne
  have hnone := check_winner_aux_eq_none_iff s.board WINNING_LINES hne
  cases hcw : check_winner s.board with
  | some w =>
    have hev : evaluate_state s = Outcome.win w := by
      simp [evaluate_state, hcw]
    have hw_spec := (hsome w).mp hcw
    refine ⟨?_, ?_, ?_⟩
    · intro m
      constructor
      · intro h
        rw [hev] at h
        cases h
        exact hw_spec
      · intro hex
        have hm : check_winner s.board = some m := (hsome m).mpr hex
        rw [hcw] at hm
        cases hm
        exact hev
    · apply iff_of_false
      · rw [hev]
        exact fun h => Outcome.noConfusion h
      · rintro ⟨hallnot, _⟩
        obtain ⟨k, hk, hwon, _⟩ := hw_spec
        exact hallnot (WINNING_LINES.getD k []) (getD_mem_of_lt _ k hk) w hwon
    · apply iff_of_false
      · rw [hev]
        exact fun h => Outcome.noConfusion h
      · rintro ⟨hallnot, _⟩
        obtain ⟨k, hk, hwon, _⟩ := hw_spec
        exact hallnot (WINNING_LINES.getD k []) (getD_mem_of_lt _ k hk) w hwon
  | none =>
    have hnall : ∀ l ∈ WINNING_LINES, ∀ m, ¬ lineWonBy s.board l m := hnone.mp hcw
    by_cases hd : is_draw s.board = true
    · have hev : evaluate_state s = Outcome.draw := by
        simp [evaluate_state, hcw, hd]
      have hfull : ∀ c ∈ s.board, c ≠ ' ' := by
        intro c hc
        have := List.all_eq_true.mp hd c hc
        simpa [bne_iff_ne] using this
      refine ⟨?_, ?_, ?_⟩
      · intro m
        apply iff_of_false
        · rw [hev]
          exact fun h => Outcome.noConfusion h
        · rintro ⟨k, hk, hwon, _⟩
          exact hnall _ (getD_mem_of_lt _ k hk) m hwon
      · exact iff_of_true hev ⟨hnall, hfull⟩
      · apply iff_of_false
        · rw [hev]
          exact fun h => Outcome.noConfusion h
        · rintro ⟨_, c, hc, hcsp⟩
          exact hfull c hc hcsp
    · have hev : evaluate_state s = Outcome.inProgress := by
        simp [evaluate_state, hcw, hd]
      have hex : ∃ c ∈ s.board, c = ' ' := by
        have h1 : ¬ ∀ c ∈ s.board, (c != ' ') = true :=
          fun hall => hd (List.all_eq_true.mpr hall)
        push_neg at h1
        obtain ⟨c, hc, hcn⟩ := h1
        refine ⟨c, hc, ?_⟩
        simpa [bne_iff_ne] using hcn
      refine ⟨?_, ?_, ?_⟩
      · intro m
        apply iff_of_false
        · rw [hev]
          exact fun h => Outcome.noConfusion h
        · rintro ⟨k, hk, hwon, _⟩
          exact hnall _ (getD_mem_of_lt _ k hk) m hwon
      · apply iff_of_false
        · rw [hev]
          exact fun h => Outcome.noConfusion h
        · rintro ⟨_, hfull⟩
          obtain ⟨c, hc, hcsp⟩ := hex
          exact hfull c hc hcsp
      · exact iff_of_true hev ⟨hnall, hex⟩

/-- C1 witness: the characterization applied to a board whose first row is all
X, selecting the `Win` direction at mark X. -/
theorem evaluate_state_spec_witness :
    (GameState.mk (List.replicate 5 'X' ++ List.replicate 20 ' ') 'O').board.length = TOTAL_CELLS
      ∧ (evaluate_state (GameState.mk (List.replicate 5 'X' ++ List.replicate 20 ' ') 'O')
            = Outcome.win 'X' ↔
          ∃ k, k < WINNING_LINES.length
            ∧ lineWonBy (GameState.mk (List.replicate 5 'X' ++ List.replicate 20 ' ') 'O').board
                (WINNING_LINES.getD k []) 'X'
            ∧ ∀ j, j < k → ∀ m',
                ¬ lineWonBy (GameState.mk (List.replicate 5 'X' ++ List.replicate 20 ' ') 'O').board
                  (WINNING_LINES.getD j []) m') :=
  ⟨by decide,
   (evaluate_state_spec (GameState.mk (List.replicate 5 'X' ++ List.replicate 20 ' ') 'O')
      (by decide)).1 'X'⟩

/-- Helper: `getD` on an append, index inside the left part. -/
theorem getD_append_of_lt {α : Type} (l₁ l₂ : List α) (k : Nat) (d : α)
    (hk : k < l₁.length) : (l₁ ++ l₂).getD k d = l₁.getD k d := by
  rw [List.getD_eq_getElem?_getD, List.getD_eq_getElem?_getD, List.getElem?_append_left hk]

/-- Helper: `getD` on an append, index past the left part. -/
theorem getD_append_of_ge {α : Type} (l₁ l₂ : List α) (k : Nat) (d : α)
    (hk : l₁.length ≤ k) : (l₁ ++ l₂).getD k d = l₂.getD (k - l₁.length) d := by
  rw [List.getD_eq_getElem?_getD, List.getD_eq_getElem?_getD, List.getElem?_append_right hk]

/-- Helper: `getD` of a mapped range at an in-range index. -/
theorem getD_map_range (f : Nat → List Nat) (n r : Nat) (hr : r < n) :
    ((List.range n).map f).getD r [] = f r := by
  rw [List.getD_eq_getElem?_getD, List.getElem?_map, List.getElem?_range hr]
  rfl

/-- Helper: the anti-diagonal index formula is strictly increasing below `n`. -/
theorem antidiag_strict (n x y : Nat) (hxy : x < y) (hy : y < n) :
    x * n + (n - 1 - x) < y * n + (n - 1 - y) := by
  have h1 : n - 1 - x < n := by omega
  calc x * n + (n - 1 - x) < x * n + n := Nat.add_lt_add_left h1 _
    _ = (x + 1) * n := by ring
    _ ≤ y * n := Nat.mul_le_mul_right n (by omega)
    _ ≤ y * n + (n - 1 - y) := Nat.le_add_right _ _

/-- C2: for every N ≥ 1, the generator returns exactly 2N+2 lines, each of
length N with N distinct indices in [0, N²), laid out rows first, then
columns, then the main diagonal and the anti-diagonal; for N = 1 it returns
exactly 4 lines, all referencing index 0. -/
theorem generate_winning_lines_spec :
    ∀ n : Nat, 1 ≤ n →
      (generate_winning_lines n).length = 2 * n + 2
      ∧ (∀ line ∈ generate_winning_lines n,
          line.length = n ∧ line.Nodup ∧ ∀ i ∈ line, i < n * n)
      ∧ (∀ r, r < n → (generate_winning_lines n).getD r []
          = (List.range n).map (fun col => r * n + col))
      ∧ (∀ c, c < n → (generate_winning_lines n).getD (n + c) []
          = (List.range n).map (fun row => c + row * n))
      ∧ (generate_winning_lines n).getD (2 * n) []
          = (List.range n).map (fun i => i * n + i)
      ∧ (generate_winning_lines n).getD (2 * n + 1) []
          = (List.range n).map (fun i => i * n + (n - 1 - i))
      ∧ (generate_winning_lines 1).length = 4
      ∧ (∀ line ∈ generate_winning_lines 1, line = [0]) := by
  intro n hn
  refine ⟨?_, ?_, ?_, ?_, ?_, ?_, by decide, by decide⟩
  · simp only [generate_winning_lines, List.length_append, List.length_map,
      List.length_range, List.length_cons, List.length_nil]
    omega
  · intro line hline
    unfold generate_winning_lines at hline
    rcases List.mem_append.mp hline with hAB | hC
    · rcases List.mem_append.mp hAB with hA | hB
      · obtain ⟨r, hr, rfl⟩ := List.mem_map.mp hA
        rw [List.mem_range] at hr
        refine ⟨by simp, ?_, ?_⟩
        · exact List.Nodup.map_on
            (fun x _ y _ h => Nat.add_left_cancel h) (List.nodup_range n)
        · intro i hi
          obtain ⟨c, hc, rfl⟩ := List.mem_map.mp hi
          rw [List.mem_range] at hc
          calc r * n + c < r * n + n := Nat.add_lt_add_left hc _
            _ = (r + 1) * n := by ring
            _ ≤ n * n := Nat.mul_le_mul_right n (Nat.succ_le_of_lt hr)
      · obtain ⟨c, hc, rfl⟩ := List.mem_map.mp hB
        rw [List.mem_range] at hc
        refine ⟨by simp, ?_, ?_⟩
        · refine List.Nodup.map_on ?_ (List.nodup_range n)
          intro x _ y _ h
          exact Nat.eq_of_mul_eq_mul_right hn (Nat.add_left_cancel h)
        · intro i hi
          obtain ⟨row, hrow, rfl⟩ := List.mem_map.mp hi
          rw [List.mem_range] at hrow
          calc c + row * n < n + row * n := Nat.add_lt_add_right hc _
            _ = (row + 1) * n := by ring
            _ ≤ n * n := Nat.mul_le_mul_right n (Nat.succ_le_of_lt hrow)
    · rcases List.mem_cons.mp hC with h1 | h1
      · subst h1
        refine ⟨by simp, ?_, ?_⟩
        · refine List.Nodup.map_on ?_ (List.nodup_range n)
          intro x _ y _ h
          have hx : x * (n + 1) = y * (n + 1) := by
            rw [Nat.mul_succ, Nat.mul_succ]
            exact h
          exact Nat.eq_of_mul_eq_mul_right (Nat.succ_pos n) hx
        · intro i hi
          obtain ⟨x, hx, rfl⟩ := List.mem_map.mp hi
          rw [List.mem_range] at hx
          calc x * n + x < x * n + n := Nat.add_lt_add_left hx _
            _ = (x + 1) * n := by ring
            _ ≤ n * n := Nat.mul_le_mul_right n (Nat.succ_le_of_lt hx)
      · have h2 := List.mem_singleton.mp h1
        subst h2
        refine ⟨by simp, ?_, ?_⟩
        · refine List.Nodup.map_on ?_ (List.nodup_range n)
          intro x hx y hy h
          rw [List.mem_range] at hx hy
          rcases Nat.lt_trichotomy x y with hlt | heq | hgt
          · exact absurd h (Nat.ne_of_lt (antidiag_strict n x y hlt hy))
          · exact heq
          · exact absurd h.symm (Nat.ne_of_lt (antidiag_strict n y x hgt hx))
        · intro i hi
          obtain ⟨x, hx, rfl⟩ := List.mem_map.mp hi
          rw [List.mem_range] at hx
          have h1 : n - 1 - x < n := by omega
          calc x * n + (n - 1 - x) < x * n + n := Nat.add_lt_add_left h1 _
            _ = (x + 1) * n := by ring
            _ ≤ n * n := Nat.mul_le_mul_right n (Nat.succ_le_of_lt hx)
  · intro r hr
    unfold generate_winning_lines
    rw [getD_append_of_lt, getD_append_of_lt, getD_map_range]
    · exact hr
    · simpa using hr
    · simp
      omega
  · intro c hc
    unfold generate_winning_lines
    rw [getD_append_of_lt, getD_append_of_ge]
    · simp only [List.length_map, List.length_range]
      have he : n + c - n = c := by omega
      rw [he, getD_map_range]
      exact hc
    · simp
    · simp
      omega
  · unfold generate_winning_lines
    rw [getD_append_of_ge]
    · simp only [List.length_append, List.length_map, List.length_range]
      have he : 2 * n - (n + n) = 0 := by omega
      rw [he, List.getD_cons_zero]
    · simp
      omega
  · unfold generate_winning_lines
    rw [getD_append_of_ge]
    · simp only [List.length_append, List.length_map, List.length_range]
      have he : 2 * n + 1 - (n + n) = 1 := by omega
      rw [he, List.getD_cons_succ, List.getD_cons_zero]
    · simp
      omega

/-- C2 witness: the 2N+2 count at N = 5 and the 4-line count at N = 1. -/
theorem generate_winning_lines_spec_witness :
    (generate_winning_lines 5).length = 2 * 5 + 2
      ∧ (generate_winning_lines 1).length = 4 :=
  ⟨(generate_winning_lines_spec 5 (by decide)).1,
   (generate_winning_lines_spec 1 (by decide)).2.2.2.2.2.2.1⟩

end TicTacToe
